import Mathlib

/-!
Verification development for the caddy-tftp module (`internal/tftp.go`).

The repository's server logic is embedded shallowly:

* `clean`, `join2`, `goAbs` model the Go standard library functions
  `path/filepath.Clean`, `Join` and `Abs` under Unix path semantics
  (separator `/`, `FromSlash` the identity).  `Clean` is modelled at the
  path-segment level, exactly following its documented algorithm
  (collapse separators, drop `.` elements, resolve `..` against the
  preceding element, drop `..` at the root); the theorem
  `goClean_stdlib_vectors` below checks the model against the Go
  standard library's own Clean test vectors.  `Abs` consults the process
  working directory only for relative paths, so it takes the result of
  `os.Getwd` as an explicit argument.
* `safePath` is `(*tftpServer).safePath`: join root and filename, make
  the result absolute, accept iff the root string is a prefix of the
  canonical string (Go `strings.HasPrefix`; for valid UTF-8 strings a
  whole-string byte prefix coincides with the character-level prefix
  used here).
* The read/write handlers, `Provision`, `Start` and `Stop` are embedded
  with the filesystem as an association list from path to byte list, the
  transport-layer stream behaviour as an opaque function argument, and
  loggers as lists of emitted records.
-/

namespace CaddyTftp

/-- A path segment: the characters between two separators. -/
abbrev Seg := List Char

/-- Prepend a character to the first segment of a segment list. -/
def consHead (c : Char) : List Seg → List Seg
  | [] => [[c]]
  | s :: ss => (c :: s) :: ss

/-- Split a character list at every `/`, keeping empty segments
(`splitSlash "a//b" = ["a", "", "b"]`, `splitSlash "" = [""]`). -/
def splitSlash : List Char → List Seg
  | [] => [[]]
  | c :: rest =>
    if c = '/' then [] :: splitSlash rest
    else consHead c (splitSlash rest)

/-- Join segments with `/` separators (inverse of `splitSlash` on
slash-free nonempty segment lists). -/
def joinSegs : List Seg → List Char
  | [] => []
  | [s] => s
  | s :: rest => s ++ '/' :: joinSegs rest

/-- Segment-level core of Go `filepath.Clean`: process the segments left
to right over an accumulator holding the output segments in reverse.
Empty and `.` segments are dropped; `..` pops the last real output
segment, is dropped at the root of a rooted path, and is kept (stacked)
at the front of a relative path. -/
def cleanSegs (rooted : Bool) : List Seg → List Seg → List Seg
  | acc, [] => acc.reverse
  | acc, s :: rest =>
    if s = [] ∨ s = ['.'] then cleanSegs rooted acc rest
    else if s = ['.', '.'] then
      match acc with
      | [] => if rooted then cleanSegs rooted [] rest else cleanSegs rooted [['.', '.']] rest
      | t :: accTail =>
        if t = ['.', '.'] then cleanSegs rooted (['.', '.'] :: t :: accTail) rest
        else cleanSegs rooted accTail rest
    else cleanSegs rooted (s :: acc) rest

/-- Go `filepath.Clean` on a character list (Unix rules). -/
def cleanList (l : List Char) : List Char :=
  if l = [] then ['.']
  else
    let rooted := l.head? = some '/'
    let segs := cleanSegs rooted [] (splitSlash l)
    if rooted then '/' :: joinSegs segs
    else if segs = [] then ['.'] else joinSegs segs

/-- Go `filepath.Clean` (Unix). -/
def clean (s : String) : String := String.mk (cleanList s.data)

/-- Go `filepath.IsAbs` (Unix): the path starts with `/`. -/
def isAbs (s : String) : Bool := s.data.head? = some '/'

/-- Go `strings.HasPrefix pre s` at the character level. -/
def hasPrefixStr (pre s : String) : Bool := List.isPrefixOf pre.data s.data

/-- Go `filepath.Join(a, b)`: drop leading empty elements, join the rest
with `/` and clean the result. -/
def join2 (a b : String) : String :=
  if a ≠ "" then clean (a ++ "/" ++ b)
  else if b ≠ "" then clean b
  else ""

/-- Go `filepath.Abs` (Unix): an absolute path is just cleaned; a
relative path is joined onto the working directory, whose lookup
(`os.Getwd`) may fail — `wd` is that lookup's outcome. -/
def goAbs (wd : Except Unit String) (p : String) : Except Unit String :=
  if isAbs p then Except.ok (clean p)
  else
    match wd with
    | Except.error e => Except.error e
    | Except.ok w => Except.ok (join2 w p)

/-- The rejection message used by `safePath`. -/
def unsafeMsg : String := "unsafe or invalid filename specified"

/-- Model of `(*tftpServer).safePath`: `p := filepath.Join(root, filename)`,
`c, err := filepath.Abs(p)`, then return `(c, error)` when `err != nil`
or `!strings.HasPrefix(c, root)` and `(c, nil)` otherwise.  On an `Abs`
failure Go leaves `c` at its zero value `""`. -/
def safePath (wd : Except Unit String) (root filename : String) : String × Option String :=
  let p := join2 root filename
  match goAbs wd p with
  | Except.error _ => ("", some unsafeMsg)
  | Except.ok c =>
    if hasPrefixStr root c then (c, none) else (c, some unsafeMsg)

/-- The `clean` model agrees with the Go standard library on the Clean
test vectors from `path/filepath/path_test.go` (Unix rows). -/
theorem goClean_stdlib_vectors :
    clean "abc" = "abc" ∧ clean "abc/def" = "abc/def" ∧ clean "a/b/c" = "a/b/c" ∧
    clean "." = "." ∧ clean ".." = ".." ∧ clean "../.." = "../.." ∧
    clean "../../abc" = "../../abc" ∧ clean "/abc" = "/abc" ∧ clean "/" = "/" ∧
    clean "" = "." ∧
    clean "abc/" = "abc" ∧ clean "abc/def/" = "abc/def" ∧ clean "a/b/c/" = "a/b/c" ∧
    clean "./" = "." ∧ clean "../" = ".." ∧ clean "../../" = "../.." ∧
    clean "/abc/" = "/abc" ∧
    clean "abc//def//ghi" = "abc/def/ghi" ∧ clean "//abc" = "/abc" ∧
    clean "///abc" = "/abc" ∧ clean "//abc//" = "/abc" ∧ clean "abc//" = "abc" ∧
    clean "abc/./def" = "abc/def" ∧ clean "/./abc/def" = "/abc/def" ∧
    clean "abc/." = "abc" ∧
    clean "abc/def/.." = "abc" ∧ clean "abc/def/../.." = "." ∧
    clean "abc/def/../../.." = ".." ∧ clean "/abc/def/../../.." = "/" ∧
    clean "abc/def/../../../ghi/jkl/../../../mno" = "../../mno" ∧
    clean "/../abc" = "/abc" ∧
    clean "abc/./../def" = "def" ∧ clean "abc//./../def" = "def" ∧
    clean "abc/../../././../def" = "../../def" := by
  decide

/-- `String.mk` and `data` are inverse. -/
theorem data_mk (l : List Char) : (String.mk l).data = l := rfl

/-- Appending strings appends their character lists. -/
theorem data_append (a b : String) : (a ++ b).data = a.data ++ b.data :=
  String.data_append a b

/-- Cleaning preserves absoluteness. -/
theorem isAbs_clean (s : String) (h : isAbs s = true) : isAbs (clean s) = true := by
  have h' : s.data.head? = some '/' := of_decide_eq_true h
  have hne : s.data ≠ [] := by
    intro hnil
    rw [hnil] at h'
    simp at h'
  unfold clean cleanList
  simp [hne, h', isAbs]

/-- For an absolute root, the joined candidate is again absolute. -/
theorem isAbs_join2 (root f : String) (h : isAbs root = true) :
    isAbs (join2 root f) = true := by
  have h' : root.data.head? = some '/' := of_decide_eq_true h
  have hne : root ≠ "" := by
    intro hnil
    rw [hnil] at h'
    simp at h'
  unfold join2
  rw [if_pos hne]
  apply isAbs_clean
  unfold isAbs
  apply decide_eq_true
  rw [data_append, data_append]
  cases hd : root.data with
  | nil => simp
  | cons c cs =>
    rw [hd] at h'
    simp at h' ⊢
    exact h'

/-- For an absolute path, `goAbs` succeeds with the cleaned path. -/
theorem goAbs_of_isAbs (wd : Except Unit String) (p : String) (h : isAbs p = true) :
    goAbs wd p = Except.ok (clean p) := by
  unfold goAbs
  simp [h]

/-- Claim C1, counterexample: with root `/srv/tftp` (absolute), the
traversal filename `../tftp-other/x` canonicalizes to the sibling
directory `/srv/tftp-other/x`, which `safePath` accepts (error `none`)
instead of rejecting. -/
theorem safePath_sibling_escape :
    isAbs "/srv/tftp" = true ∧
    safePath (Except.ok "/") "/srv/tftp" "../tftp-other/x" =
      ("/srv/tftp-other/x", none) := by
  constructor
  · decide
  · decide

/-- Claim C1, amended: for an absolute root, `safePath` rejects exactly
those filenames whose canonicalized join does not have the root as a
string prefix; traversal sequences whose canonical join lands in a
sibling directory sharing the root as a string prefix are accepted. -/
theorem safePath_accept_iff_prefixed (wd : Except Unit String) (root f : String)
    (h : isAbs root = true) :
    (safePath wd root f).2 = none ↔
      hasPrefixStr root (safePath wd root f).1 = true := by
  have hgo := goAbs_of_isAbs wd (join2 root f) (isAbs_join2 root f h)
  by_cases hp : hasPrefixStr root (clean (join2 root f)) = true
  · simp [safePath, hgo, hp]
  · simp [safePath, hgo, hp]

/-- Witness for `safePath_accept_iff_prefixed` at root `/srv/tftp` and
filename `../../etc/passwd` (which is rejected: the canonical result is
`/etc/passwd`). -/
theorem safePath_accept_iff_prefixed_witness :
    isAbs "/srv/tftp" = true ∧
    ((safePath (Except.ok "/") "/srv/tftp" "../../etc/passwd").2 = none ↔
      hasPrefixStr "/srv/tftp"
        (safePath (Except.ok "/") "/srv/tftp" "../../etc/passwd").1 = true) :=
  ⟨by decide, safePath_accept_iff_prefixed (Except.ok "/") "/srv/tftp" "../../etc/passwd" (by decide)⟩

/-- Acceptance condition written from the spec's words: the
canonicalization of the join succeeded and the canonical result's string
representation begins with the root's string representation. -/
def specAccepts (wd : Except Unit String) (root filename : String) : Prop :=
  ∃ c, goAbs wd (join2 root filename) = Except.ok c ∧ hasPrefixStr root c = true

/-- Claim C2: `safePath` returns no error iff joining and
canonicalizing succeeded and the canonical result has the root as a
string prefix; moreover the accepted value is that canonical result. -/
theorem safePath_accept_characterization (wd : Except Unit String) (root f : String) :
    ((safePath wd root f).2 = none ↔ specAccepts wd root f) ∧
    ((safePath wd root f).2 = none →
      goAbs wd (join2 root f) = Except.ok (safePath wd root f).1) := by
  cases hab : goAbs wd (join2 root f) with
  | error e =>
    simp [safePath, specAccepts, hab]
  | ok c =>
    by_cases hp : hasPrefixStr root c = true
    · simp [safePath, specAccepts, hab, hp]
    · simp [safePath, specAccepts, hab, hp]

/-- A canonical output segment: nonempty, not `.`, not `..`, slash-free. -/
def GoodSeg (s : Seg) : Prop :=
  s ≠ [] ∧ s ≠ ['.'] ∧ s ≠ ['.', '.'] ∧ '/' ∉ s

/-- The segments of a path kept by cleaning when no `..` occurs. -/
def keepSeg (s : Seg) : Bool :=
  if s = [] ∨ s = ['.'] then false else true

theorem splitSlash_ne_nil (l : List Char) : splitSlash l ≠ [] := by
  cases l with
  | nil => simp [splitSlash]
  | cons c rest =>
    by_cases hc : c = '/'
    · simp [splitSlash, hc]
    · simp only [splitSlash, hc, if_false]
      cases hs : splitSlash rest with
      | nil => simp [consHead]
      | cons s ss => simp [consHead]

theorem consHead_append (c : Char) (xs ys : List Seg) (h : xs ≠ []) :
    consHead c (xs ++ ys) = consHead c xs ++ ys := by
  cases xs with
  | nil => exact absurd rfl h
  | cons s ss => simp [consHead]

theorem splitSlash_append (a b : List Char) :
    splitSlash (a ++ '/' :: b) = splitSlash a ++ splitSlash b := by
  induction a with
  | nil => simp [splitSlash]
  | cons c a' ih =>
    by_cases hc : c = '/'
    · subst hc
      simp [splitSlash, ih]
    · have hstep : splitSlash ((c :: a') ++ '/' :: b) = consHead c (splitSlash (a' ++ '/' :: b)) := by
        simp [splitSlash, hc]
      rw [hstep, ih, consHead_append c (splitSlash a') (splitSlash b) (splitSlash_ne_nil a')]
      have hstep2 : splitSlash (c :: a') = consHead c (splitSlash a') := by
        simp [splitSlash, hc]
      rw [hstep2]

theorem splitSlash_noslash (l : List Char) : ∀ s ∈ splitSlash l, '/' ∉ s := by
  induction l with
  | nil => simp [splitSlash]
  | cons c l' ih =>
    by_cases hc : c = '/'
    · subst hc
      simp only [splitSlash, if_pos rfl]
      intro s hs
      cases hs with
      | head => simp
      | tail _ hmem => exact ih s hmem
    · simp only [splitSlash, hc, if_false]
      cases hsp : splitSlash l' with
      | nil => exact absurd hsp (splitSlash_ne_nil l')
      | cons s0 ss =>
        simp only [consHead]
        intro s hs
        cases hs with
        | head =>
          intro hmem
          cases hmem with
          | head => exact hc rfl
          | tail _ hmem2 =>
            exact ih s0 (by rw [hsp]; exact List.mem_cons_self s0 ss) hmem2
        | tail _ hmem =>
          exact ih s (by rw [hsp]; exact List.mem_cons_of_mem s0 hmem)

/-- On a slash-free character list, splitting is the identity. -/
theorem splitSlash_of_noslash (s : List Char) (h : '/' ∉ s) : splitSlash s = [s] := by
  induction s with
  | nil => simp [splitSlash]
  | cons c s' ih =>
    have hc : c ≠ '/' := by
      intro hcc
      exact h (by rw [hcc]; exact List.mem_cons_self '/' s')
    have hs' : '/' ∉ s' := fun hmem => h (List.mem_cons_of_mem c hmem)
    simp [splitSlash, hc, ih hs', consHead]

theorem splitSlash_joinSegs (sns : List Seg) (hne : sns ≠ [])
    (hfree : ∀ s ∈ sns, '/' ∉ s) : splitSlash (joinSegs sns) = sns := by
  induction sns with
  | nil => exact absurd rfl hne
  | cons s sns' ih =>
    cases sns' with
    | nil =>
      simp only [joinSegs]
      exact splitSlash_of_noslash s (hfree s (List.mem_cons_self s []))
    | cons t sns'' =>
      have hjoin : joinSegs (s :: t :: sns'') = s ++ '/' :: joinSegs (t :: sns'') := rfl
      rw [hjoin, splitSlash_append,
        splitSlash_of_noslash s (hfree s (List.mem_cons_self s (t :: sns''))),
        ih (by simp) (fun u hu => hfree u (List.mem_cons_of_mem s hu))]
      rfl

/-- Pushing a run of canonical segments through `cleanSegs` just stacks
them on the accumulator. -/
theorem cleanSegs_push (rooted : Bool) (rs : List Seg) (acc : List Seg) (fs : List Seg)
    (h : ∀ s ∈ rs, GoodSeg s) :
    cleanSegs rooted acc (rs ++ fs) = cleanSegs rooted (rs.reverse ++ acc) fs := by
  induction rs generalizing acc with
  | nil => simp
  | cons s rs' ih =>
    have hs := h s (List.mem_cons_self s rs')
    obtain ⟨h1, h2, h3, _⟩ := hs
    have hcond : ¬(s = [] ∨ s = ['.']) := by
      intro hor
      cases hor with
      | inl h' => exact h1 h'
      | inr h' => exact h2 h'
    simp only [List.cons_append, cleanSegs, hcond, if_false, h3]
    rw [show (s :: rs').reverse ++ acc = rs'.reverse ++ (s :: acc) by simp]
    exact ih (s :: acc) (fun u hu => h u (List.mem_cons_of_mem s hu))

/-- With no `..` segment in the input, `cleanSegs` keeps exactly the
nonempty, non-`.` segments, in order, after the accumulator. -/
theorem cleanSegs_no_dotdot (rooted : Bool) (acc : List Seg) (fs : List Seg)
    (h : ∀ s ∈ fs, s ≠ ['.', '.']) :
    cleanSegs rooted acc fs = acc.reverse ++ fs.filter keepSeg := by
  induction fs generalizing acc with
  | nil => simp [cleanSegs]
  | cons s fs' ih =>
    have hdd := h s (List.mem_cons_self s fs')
    have hrest : ∀ u ∈ fs', u ≠ ['.', '.'] := fun u hu => h u (List.mem_cons_of_mem s hu)
    by_cases hc : s = [] ∨ s = ['.']
    · have hk : keepSeg s = false := by simp [keepSeg, hc]
      simp only [cleanSegs, hc, if_true, List.filter_cons, hk, if_false]
      rw [ih acc hrest]
      simp
    · have hk : keepSeg s = true := by simp [keepSeg, hc]
      simp only [cleanSegs, hc, if_false, hdd, List.filter_cons, hk, if_true]
      rw [ih (s :: acc) hrest]
      simp

/-- Over a rooted path, `cleanSegs` outputs only canonical segments when
fed slash-free segments over a canonical accumulator. -/
theorem cleanSegs_good (acc : List Seg) (fs : List Seg)
    (hacc : ∀ s ∈ acc, GoodSeg s) (hfs : ∀ s ∈ fs, '/' ∉ s) :
    ∀ s ∈ cleanSegs true acc fs, GoodSeg s := by
  induction fs generalizing acc with
  | nil =>
    intro s hs
    simp only [cleanSegs, List.mem_reverse] at hs
    exact hacc s hs
  | cons s fs' ih =>
    have hfree := hfs s (List.mem_cons_self s fs')
    have hrest : ∀ u ∈ fs', '/' ∉ u := fun u hu => hfs u (List.mem_cons_of_mem s hu)
    by_cases hc : s = [] ∨ s = ['.']
    · simp only [cleanSegs, hc, if_true]
      exact ih acc hacc hrest
    · by_cases hdd : s = ['.', '.']
      · simp only [cleanSegs, hc, if_false, hdd, if_true]
        cases acc with
        | nil =>
          simp only [if_true]
          exact ih [] (by simp) hrest
        | cons t accTail =>
          have ht : t ≠ ['.', '.'] := (hacc t (List.mem_cons_self t accTail)).2.2.1
          simp only [ht, if_false]
          exact ih accTail (fun u hu => hacc u (List.mem_cons_of_mem t hu)) hrest
      · simp only [cleanSegs, hc, if_false, hdd, if_false]
        apply ih (s :: acc) _ hrest
        intro u hu
        cases hu with
        | head =>
          refine ⟨?_, ?_, hdd, hfree⟩
          · intro h'; exact hc (Or.inl h')
          · intro h'; exact hc (Or.inr h')
        | tail _ hmem => exact hacc u hmem

/-- A canonical absolute root decomposes as `/` followed by canonical
segments joined with `/`. -/
theorem clean_root_decomp (root : String) (habs : isAbs root = true)
    (hroot : clean root = root) :
    ∃ rs, (∀ s ∈ rs, GoodSeg s) ∧ root.data = '/' :: joinSegs rs := by
  have hhead : root.data.head? = some '/' := of_decide_eq_true habs
  have hne : root.data ≠ [] := by
    intro hnil
    rw [hnil] at hhead
    simp at hhead
  refine ⟨cleanSegs true [] (splitSlash root.data), ?_, ?_⟩
  · exact cleanSegs_good [] (splitSlash root.data) (by simp) (splitSlash_noslash root.data)
  · conv_lhs => rw [← hroot]
    unfold clean cleanList
    simp [hne, hhead]

theorem joinSegs_append (xs ys : List Seg) (hx : xs ≠ []) (hy : ys ≠ []) :
    joinSegs (xs ++ ys) = joinSegs xs ++ '/' :: joinSegs ys := by
  induction xs with
  | nil => exact absurd rfl hx
  | cons s xs' ih =>
    cases xs' with
    | nil =>
      cases ys with
      | nil => exact absurd rfl hy
      | cons t ys' => simp [joinSegs]
    | cons t xs'' =>
      have h1 : joinSegs (s :: t :: xs'') = s ++ '/' :: joinSegs (t :: xs'') := rfl
      have h2 : joinSegs ((s :: t :: xs'') ++ ys) = s ++ '/' :: joinSegs ((t :: xs'') ++ ys) := rfl
      rw [h2, ih (by simp), h1]
      simp

/-- Joined segments are a list prefix of the join of an extension. -/
theorem joinSegs_prefix_of_append (xs ys : List Seg) :
    joinSegs xs <+: joinSegs (xs ++ ys) := by
  cases hx : xs with
  | nil =>
    simp only [List.nil_append, joinSegs]
    exact List.nil_prefix
  | cons s xs' =>
    cases hy : ys with
    | nil => simp
    | cons t ys' =>
      rw [← hx, ← hy, joinSegs_append xs ys (by rw [hx]; simp) (by rw [hy]; simp)]
      exact ⟨'/' :: joinSegs ys, rfl⟩

/-- Cleaning is the identity on a canonical rooted path. -/
theorem cleanList_canonical (hs : List Seg) (h : ∀ s ∈ hs, GoodSeg s) :
    cleanList ('/' :: joinSegs hs) = '/' :: joinSegs hs := by
  have hsplit : splitSlash ('/' :: joinSegs hs) = [] :: splitSlash (joinSegs hs) := by
    simp [splitSlash]
  have hgoal : cleanSegs true [] (splitSlash ('/' :: joinSegs hs)) = hs := by
    rw [hsplit]
    cases hhs : hs with
    | nil => simp [joinSegs, splitSlash, cleanSegs]
    | cons s hs' =>
      rw [← hhs, splitSlash_joinSegs hs (by rw [hhs]; simp) (fun u hu => (h u hu).2.2.2)]
      have hskip : cleanSegs true [] ([] :: hs) = cleanSegs true ([] : List Seg) hs := by
        simp [cleanSegs]
      rw [hskip]
      have hp := cleanSegs_push true hs [] [] h
      rw [List.append_nil] at hp
      rw [hp]
      simp [cleanSegs]
  have hhead : ('/' :: joinSegs hs).head? = some '/' := rfl
  unfold cleanList
  simp [hhead, hgoal]

/-- Strings with equal character data are equal. -/
theorem string_data_inj {a b : String} (h : a.data = b.data) : a = b :=
  congrArg String.mk h

/-- Root `r` is a path-segment-aware prefix of `c`: equal to it, or a
prefix ending at a `/` boundary. -/
def isUnderRoot (root c : String) : Bool :=
  decide (root = c) || List.isPrefixOf (root.data ++ ['/']) c.data ||
    (decide (root.data.getLast? = some '/') && List.isPrefixOf root.data c.data)

/-- Peeling the leading `/` off `cleanList` of a rooted path. -/
theorem cleanList_rooted (l : List Char) :
    cleanList ('/' :: l) = '/' :: joinSegs (cleanSegs true [] (splitSlash ('/' :: l))) := by
  unfold cleanList
  simp

/-- Joining a canonical absolute root with a filename containing no `..`
segment appends exactly the kept segments of the filename. -/
theorem join2_data_decomp (root f : String) (habs : isAbs root = true)
    (hroot : clean root = root) (hf : ∀ s ∈ splitSlash f.data, s ≠ ['.', '.']) :
    ∃ rs gs, (∀ s ∈ rs, GoodSeg s) ∧ (∀ s ∈ gs, GoodSeg s) ∧
      root.data = '/' :: joinSegs rs ∧
      (join2 root f).data = '/' :: joinSegs (rs ++ gs) := by
  obtain ⟨rs, hrsG, hrd⟩ := clean_root_decomp root habs hroot
  refine ⟨rs, (splitSlash f.data).filter keepSeg, hrsG, ?_, hrd, ?_⟩
  · intro s hs
    rw [List.mem_filter] at hs
    obtain ⟨hmem, hkeep⟩ := hs
    have hnd := hf s hmem
    have hfree := splitSlash_noslash f.data s hmem
    by_cases hc : s = [] ∨ s = ['.']
    · unfold keepSeg at hkeep
      rw [if_pos hc] at hkeep
      exact absurd hkeep (by simp)
    · exact ⟨fun h1 => hc (Or.inl h1), fun h2 => hc (Or.inr h2), hnd, hfree⟩
  · have hne : root ≠ "" := by
      intro hnil
      rw [hnil] at hrd
      simp at hrd
    have hj : join2 root f = clean (root ++ "/" ++ f) := by
      unfold join2
      rw [if_pos hne]
    have hd : (root ++ "/" ++ f).data = '/' :: (joinSegs rs ++ '/' :: f.data) := by
      rw [data_append, data_append, hrd]
      simp
    have hseg : cleanSegs true [] (splitSlash (joinSegs rs) ++ splitSlash f.data)
        = rs ++ (splitSlash f.data).filter keepSeg := by
      cases hrs : rs with
      | nil =>
        have hsempty : splitSlash (joinSegs ([] : List Seg)) = [[]] := by
          simp [joinSegs, splitSlash]
        rw [hsempty]
        have hskip : cleanSegs true [] (([] : Seg) :: splitSlash f.data) =
            cleanSegs true ([] : List Seg) (splitSlash f.data) := by
          simp [cleanSegs]
        rw [List.singleton_append, hskip, cleanSegs_no_dotdot true [] _ hf]
        simp
      | cons s rs' =>
        rw [← hrs, splitSlash_joinSegs rs (by rw [hrs]; simp) (fun u hu => (hrsG u hu).2.2.2),
          cleanSegs_push true rs [] _ hrsG, cleanSegs_no_dotdot true _ _ hf]
        simp
    have hsplit2 : splitSlash ('/' :: (joinSegs rs ++ '/' :: f.data)) =
        [] :: (splitSlash (joinSegs rs) ++ splitSlash f.data) := by
      simp [splitSlash, splitSlash_append]
    have hskip2 : cleanSegs true [] (([] : Seg) :: (splitSlash (joinSegs rs) ++ splitSlash f.data)) =
        cleanSegs true ([] : List Seg) (splitSlash (joinSegs rs) ++ splitSlash f.data) := by
      simp [cleanSegs]
    rw [hj]
    show cleanList ((root ++ "/" ++ f).data) = _
    rw [hd, cleanList_rooted, hsplit2, hskip2, hseg]

/-- Claim C3: for a canonical absolute root and a filename with no `..`
path segment, `safePath` accepts and the result lies under the root at a
path-segment boundary. -/
theorem safePath_no_dotdot_confined (wd : Except Unit String) (root f : String)
    (habs : isAbs root = true) (hroot : clean root = root)
    (hf : ∀ s ∈ splitSlash f.data, s ≠ ['.', '.']) :
    (safePath wd root f).2 = none ∧ isUnderRoot root (safePath wd root f).1 = true := by
  obtain ⟨rs, gs, hrsG, hgsG, hrd, hjd⟩ := join2_data_decomp root f habs hroot hf
  have hGood : ∀ s ∈ rs ++ gs, GoodSeg s := by
    intro s hs
    rcases List.mem_append.1 hs with h | h
    · exact hrsG s h
    · exact hgsG s h
  have hcanon : clean (join2 root f) = join2 root f := by
    apply string_data_inj
    show cleanList ((join2 root f).data) = (join2 root f).data
    rw [hjd]
    exact cleanList_canonical (rs ++ gs) hGood
  have hgo : goAbs wd (join2 root f) = Except.ok (join2 root f) := by
    rw [goAbs_of_isAbs wd _ (isAbs_join2 root f habs), hcanon]
  have hprefix : List.isPrefixOf root.data (join2 root f).data = true := by
    rw [hrd, hjd, List.isPrefixOf_iff_prefix]
    exact List.cons_prefix_cons.mpr ⟨rfl, joinSegs_prefix_of_append rs gs⟩
  have hpre : hasPrefixStr root (join2 root f) = true := hprefix
  have hres : safePath wd root f = (join2 root f, none) := by
    simp [safePath, hgo, hpre]
  rw [hres]
  refine ⟨rfl, ?_⟩
  show isUnderRoot root (join2 root f) = true
  unfold isUnderRoot
  cases hgs : gs with
  | nil =>
    have heq : root = join2 root f := by
      apply string_data_inj
      rw [hrd, hjd, hgs, List.append_nil]
    have h1 : decide (root = join2 root f) = true := decide_eq_true heq
    rw [h1]
    simp
  | cons g gs' =>
    cases hrs : rs with
    | nil =>
      have hlast : root.data.getLast? = some '/' := by
        rw [hrd, hrs]
        rfl
      have h2 : decide (root.data.getLast? = some '/') = true := decide_eq_true hlast
      rw [h2, hprefix]
      simp
    | cons r rs' =>
      have hrsne : rs ≠ [] := by rw [hrs]; simp
      have hgsne : gs ≠ [] := by rw [hgs]; simp
      have hmid : List.isPrefixOf (root.data ++ ['/']) (join2 root f).data = true := by
        rw [hrd, hjd, List.isPrefixOf_iff_prefix, joinSegs_append rs gs hrsne hgsne]
        have hstep : ('/' :: joinSegs rs) ++ ['/'] = '/' :: (joinSegs rs ++ ['/']) := by simp
        rw [hstep]
        exact List.cons_prefix_cons.mpr ⟨rfl, ⟨joinSegs gs, by simp⟩⟩
      rw [hmid]
      simp

/-- Witness for `safePath_no_dotdot_confined`: root `/srv/tftp` and the
traversal-free filename `subdir/boot.bin`. -/
theorem safePath_no_dotdot_confined_witness :
    (isAbs "/srv/tftp" = true ∧ clean "/srv/tftp" = "/srv/tftp" ∧
      (∀ s ∈ splitSlash "subdir/boot.bin".data, s ≠ ['.', '.'])) ∧
    ((safePath (Except.ok "/") "/srv/tftp" "subdir/boot.bin").2 = none ∧
      isUnderRoot "/srv/tftp" (safePath (Except.ok "/") "/srv/tftp" "subdir/boot.bin").1 = true) :=
  ⟨⟨by decide, by decide, by decide⟩,
    safePath_no_dotdot_confined (Except.ok "/") "/srv/tftp" "subdir/boot.bin"
      (by decide) (by decide) (by decide)⟩

/-- One debug record of the sanitizer's forensic trace. -/
structure DebugEntry where
  root : String
  filename : String
  result : String
deriving DecidableEq

/-- The state a `tftpServer` exposes to `safePath`: its immutable root,
the ambient working directory consulted by `filepath.Abs`, and the log
sink. -/
structure SrvPathState where
  root : String
  wd : Except Unit String
  debugLog : List DebugEntry

/-- State-passing model of `(*tftpServer).safePath`: same computation as
`safePath`, with the only effect being one appended debug record. -/
def safePathRun (st : SrvPathState) (filename : String) :
    (String × Option String) × SrvPathState :=
  let p := join2 st.root filename
  let c :=
    match goAbs st.wd p with
    | Except.error _ => ""
    | Except.ok c => c
  let st' := { st with debugLog := st.debugLog ++ [⟨st.root, filename, c⟩] }
  match goAbs st.wd p with
  | Except.error _ => ((c, some unsafeMsg), st')
  | Except.ok c2 =>
    if hasPrefixStr st.root c2 then ((c2, none), st') else ((c2, some unsafeMsg), st')

/-- Claim C9: `safePath` is deterministic and effectively pure — its
value is a function of the root, working directory and filename alone;
the root and working directory are unchanged; the only state effect is
appending one debug record; and an immediate second call with the same
filename returns the identical output. -/
theorem safePathRun_pure (st : SrvPathState) (f : String) :
    (safePathRun st f).1 = safePath st.wd st.root f ∧
    (safePathRun st f).2.root = st.root ∧
    (safePathRun st f).2.wd = st.wd ∧
    (safePathRun st f).2.debugLog =
      st.debugLog ++ [⟨st.root, f, (safePath st.wd st.root f).1⟩] ∧
    (safePathRun (safePathRun st f).2 f).1 = (safePathRun st f).1 := by
  cases hab : goAbs st.wd (join2 st.root f) with
  | error e =>
    simp [safePathRun, safePath, hab]
  | ok c =>
    by_cases hp : hasPrefixStr st.root c = true
    · simp [safePathRun, safePath, hab, hp]
    · simp [safePathRun, safePath, hab, hp]

/-! ### Server configuration, provisioning and lifecycle -/

/-- Byte content of a file. -/
abbrev Bytes := List Nat

/-- The filesystem as an association list from absolute path to content;
`lookup` finds the most recently created entry. -/
abbrev FS := List (String × Bytes)

/-- One entry of the `servers` map of the module's JSON config. -/
structure ServerConfig where
  listen : String
  root : String
  timeout : Int
  logs : Bool
deriving DecidableEq

/-- Model of `caddy.NetworkAddress` (the fields this module uses). -/
structure NetworkAddress where
  network : String
  host : String
  startPort : Nat
  endPort : Nat
deriving DecidableEq

/-- Model of `caddy.NetworkAddress.PortRangeSize`. -/
def portRangeSize (a : NetworkAddress) : Nat :=
  if a.endPort < a.startPort then 0 else a.endPort - a.startPort + 1

/-- Cut a character list at the first `/`, when present. -/
def splitFirstSlash : List Char → Option (List Char × List Char)
  | [] => none
  | c :: rest =>
    if c = '/' then some ([], rest)
    else
      match splitFirstSlash rest with
      | none => none
      | some (a, b) => some (c :: a, b)

/-- Split `host:port` at the last colon; with no colon the whole input
is the host and the port is empty (Go `net.SplitHostPort` falls back to
`a + ":"` inside caddy's `SplitNetworkAddress`). -/
def splitHostPort (l : List Char) : List Char × List Char :=
  if ':' ∈ l then
    (((l.reverse.dropWhile (fun c => c ≠ ':')).tail).reverse,
      (l.reverse.takeWhile (fun c => c ≠ ':')).reverse)
  else (l, [])

/-- Cut a character list at the first `-`, when present. -/
def splitFirstDash : List Char → List Char × Option (List Char)
  | [] => ([], none)
  | c :: rest =>
    if c = '-' then ([], some rest)
    else
      let (a, b) := splitFirstDash rest
      (c :: a, b)

/-- Accumulate decimal digits (Go `strconv.ParseUint` base 10). -/
def parseNatAux : List Char → Nat → Option Nat
  | [], acc => some acc
  | c :: rest, acc =>
    if '0' ≤ c ∧ c ≤ '9' then parseNatAux rest (acc * 10 + (c.toNat - 48))
    else none

/-- Parse a nonempty all-digit character list as a natural number. -/
def parseNatChars (l : List Char) : Option Nat :=
  if l = [] then none else parseNatAux l 0

/-- Parse a port or `start-end` port range; an empty port part takes the
default port (caddy parses ports as 16-bit unsigned integers and rejects
an inverted range). -/
def parsePorts (p : List Char) (defaultPort : Nat) : Except String (Nat × Nat) :=
  if p = [] then Except.ok (defaultPort, defaultPort)
  else
    match splitFirstDash p with
    | (sChars, eOpt) =>
      match parseNatChars sChars with
      | none => Except.error "invalid start port"
      | some sp =>
        if sp > 65535 then Except.error "port out of range"
        else
          match eOpt with
          | none => Except.ok (sp, sp)
          | some eChars =>
            match parseNatChars eChars with
            | none => Except.error "invalid end port"
            | some ep =>
              if ep > 65535 then Except.error "port out of range"
              else if ep < sp then Except.error "port range is invalid"
              else Except.ok (sp, ep)

/-- Model of `caddy.ParseNetworkAddressWithDefaults` for the address
shapes this module accepts: an optional `network/` part cut at the first
slash (defaulted when absent), a host, and a port or port range after
the last colon (defaulted when absent). -/
def parseNetworkAddressWithDefaults (s : String) (defaultNetwork : String)
    (defaultPort : Nat) : Except String NetworkAddress :=
  let (netPart, rest) :=
    match splitFirstSlash s.data with
    | none => (([] : List Char), s.data)
    | some (a, b) => (a, b)
  let network := if netPart = [] then defaultNetwork else String.mk netPart
  match splitHostPort rest with
  | (host, port) =>
    match parsePorts port defaultPort with
    | Except.error e => Except.error e
    | Except.ok (sp, ep) =>
      Except.ok { network := network, host := String.mk host, startPort := sp, endPort := ep }

/-- Runtime server instance built by `Provision`.  `accessLogSet` models
whether the `accessLog` field is non-nil — the condition the handlers
test before emitting an access-log record. -/
structure TftpSrv where
  name : String
  root : String
  addr : NetworkAddress
  timeout : Int
  accessLogSet : Bool
deriving DecidableEq

/-- Model of one iteration of `Provision`'s loop over the `Servers` map:
resolve the root to an absolute path, parse the listen address with
defaults `udp`/69, reject non-UDP networks, and build the instance.
`accessLogSet` is unconditionally `true`: the code always assigns
`accessLog: log.Named("access")` and never reads the `Logs` config
field. -/
def provisionOne (wd : Except Unit String) (name : String) (cfg : ServerConfig) :
    Except String TftpSrv :=
  match goAbs wd cfg.root with
  | Except.error _ => Except.error "abs failed"
  | Except.ok root =>
    match parseNetworkAddressWithDefaults cfg.listen "udp" 69 with
    | Except.error e => Except.error e
    | Except.ok addr =>
      if addr.network ≠ "udp" then
        Except.error "only 'udp' is supported in the listener addr"
      else
        Except.ok { name := name, root := root, addr := addr, timeout := cfg.timeout,
                    accessLogSet := true }

/-- Model of `Provision`: process the entries in iteration order,
appending one instance per entry, aborting on the first failure. -/
def provision (wd : Except Unit String) :
    List (String × ServerConfig) → Except String (List TftpSrv)
  | [] => Except.ok []
  | (n, c) :: rest =>
    match provisionOne wd n c with
    | Except.error e => Except.error e
    | Except.ok s =>
      match provision wd rest with
      | Except.error e => Except.error e
      | Except.ok ss => Except.ok (s :: ss)

/-- One access-log record as emitted by the handlers' deferred block. -/
structure AccessRecord where
  remoteIP : String
  remotePort : Nat
  method : String
  uri : String
  bytes : Int
  duration : Int
deriving DecidableEq

/-- Observable outcome of one handler invocation: the error returned to
the transport layer, the final transferred byte count `n`, the
filesystem after the call, and the emitted log records. -/
structure HandlerResult where
  err : Option String
  bytes : Int
  fs : FS
  accessRecords : List AccessRecord
  errorLogs : List String
deriving DecidableEq

/-- Model of `(*tftpServer).readHandler`.  `wd` is the ambient working
directory, `remote` the transfer's remote address, `rfB` the opaque
behaviour of the transport's `rf.ReadFrom` (given the opened file's
content it yields the byte count and an optional I/O error), `startT`
and `endT` the clock readings at entry and at the deferred exit.  A
missing file models the `os.Open` failure.  The deferred access-log
record fires on every exit path when `accessLog` is non-nil. -/
def readHandler (srv : TftpSrv) (wd : Except Unit String) (fs : FS)
    (remote : String × Nat) (rfB : Bytes → Int × Option String)
    (startT endT : Int) (filename : String) : HandlerResult :=
  let record := fun (n : Int) =>
    if srv.accessLogSet then
      [{ remoteIP := remote.1, remotePort := remote.2, method := "GET", uri := filename,
         bytes := n, duration := endT - startT }]
    else []
  match safePath wd srv.root filename with
  | (_, some e) =>
    { err := some e, bytes := 0, fs := fs, accessRecords := record 0, errorLogs := [e] }
  | (p, none) =>
    match fs.lookup p with
    | none =>
      let e := "open " ++ p ++ ": no such file or directory"
      { err := some e, bytes := 0, fs := fs, accessRecords := record 0, errorLogs := [e] }
    | some content =>
      match rfB content with
      | (n, some e) =>
        { err := some e, bytes := n, fs := fs, accessRecords := record n, errorLogs := [e] }
      | (n, none) =>
        { err := none, bytes := n, fs := fs, accessRecords := record n, errorLogs := [] }

/-- Model of `(*tftpServer).writeHandler`.  `os.OpenFile` with
`O_WRONLY|O_CREATE|O_EXCL` fails when the resolved path already exists
and otherwise creates the file; `wt.WriteTo` streams `wtBytes` into it
and returns `wtErr`, the file keeping the bytes written even when the
transfer then fails. -/
def writeHandler (srv : TftpSrv) (wd : Except Unit String) (fs : FS)
    (remote : String × Nat) (wtBytes : Bytes) (wtErr : Option String)
    (startT endT : Int) (filename : String) : HandlerResult :=
  let record := fun (n : Int) =>
    if srv.accessLogSet then
      [{ remoteIP := remote.1, remotePort := remote.2, method := "PUT", uri := filename,
         bytes := n, duration := endT - startT }]
    else []
  match safePath wd srv.root filename with
  | (_, some e) =>
    { err := some e, bytes := 0, fs := fs, accessRecords := record 0, errorLogs := [e] }
  | (p, none) =>
    match fs.lookup p with
    | some _ =>
      let e := "open " ++ p ++ ": file exists"
      { err := some e, bytes := 0, fs := fs, accessRecords := record 0, errorLogs := [e] }
    | none =>
      let fs' := (p, wtBytes) :: fs
      let n : Int := wtBytes.length
      match wtErr with
      | some e =>
        { err := some e, bytes := n, fs := fs', accessRecords := record n, errorLogs := [e] }
      | none =>
        { err := none, bytes := n, fs := fs', accessRecords := record n, errorLogs := [] }

deriving instance DecidableEq for Except

/-- The network address `udp/:69`. -/
def addr69 : NetworkAddress :=
  { network := "udp", host := "", startPort := 69, endPort := 69 }

/-- A provisioned instance serving `/srv/tftp` on the default address. -/
def srv69 : TftpSrv :=
  { name := "s", root := "/srv/tftp", addr := addr69, timeout := 0, accessLogSet := true }

/-- Claim C4: when the resolved path already names an existing file, the
write handler fails at the create-exclusive open — before any bytes are
transferred — and the filesystem, in particular the existing file's
content, is unchanged. -/
theorem writeHandler_no_overwrite (srv : TftpSrv) (wd : Except Unit String) (fs : FS)
    (remote : String × Nat) (wtBytes : Bytes) (wtErr : Option String)
    (startT endT : Int) (filename p : String) (v : Bytes)
    (hsafe : safePath wd srv.root filename = (p, none))
    (hex : fs.lookup p = some v) :
    (writeHandler srv wd fs remote wtBytes wtErr startT endT filename).err.isSome = true ∧
    (writeHandler srv wd fs remote wtBytes wtErr startT endT filename).bytes = 0 ∧
    (writeHandler srv wd fs remote wtBytes wtErr startT endT filename).fs = fs ∧
    (writeHandler srv wd fs remote wtBytes wtErr startT endT filename).fs.lookup p = some v := by
  simp [writeHandler, hsafe, hex]

/-- Witness for `writeHandler_no_overwrite`: a second upload of
`new.img` under root `/srv/tftp` when the file already exists. -/
theorem writeHandler_no_overwrite_witness :
    (safePath (Except.ok "/") "/srv/tftp" "new.img" = ("/srv/tftp/new.img", none) ∧
      ([("/srv/tftp/new.img", [1, 2])] : FS).lookup "/srv/tftp/new.img" = some [1, 2]) ∧
    ((writeHandler srv69 (Except.ok "/") [("/srv/tftp/new.img", [1, 2])] ("10.0.0.1", 40000)
        [3, 4] none 0 5 "new.img").err.isSome = true ∧
      (writeHandler srv69 (Except.ok "/") [("/srv/tftp/new.img", [1, 2])] ("10.0.0.1", 40000)
        [3, 4] none 0 5 "new.img").bytes = 0 ∧
      (writeHandler srv69 (Except.ok "/") [("/srv/tftp/new.img", [1, 2])] ("10.0.0.1", 40000)
        [3, 4] none 0 5 "new.img").fs = [("/srv/tftp/new.img", [1, 2])] ∧
      (writeHandler srv69 (Except.ok "/") [("/srv/tftp/new.img", [1, 2])] ("10.0.0.1", 40000)
        [3, 4] none 0 5 "new.img").fs.lookup "/srv/tftp/new.img" = some [1, 2]) :=
  ⟨⟨by decide, by decide⟩,
    writeHandler_no_overwrite srv69
      (Except.ok "/") [("/srv/tftp/new.img", [1, 2])] ("10.0.0.1", 40000)
      [3, 4] none 0 5 "new.img" "/srv/tftp/new.img" [1, 2] (by decide) (by decide)⟩

/-- A server entry with access logging disabled in its configuration. -/
def noLogsCfg : ServerConfig :=
  { listen := ":69", root := "/srv/tftp", timeout := 0, logs := false }

/-- Claim C5, failing input: the `logs: false` configuration still
yields an instance whose access logger is set (Provision never reads the
`Logs` field), and a completed read request under that instance emits an
access-log record anyway. -/
theorem accessLog_emitted_despite_logs_false :
    noLogsCfg.logs = false ∧
    provisionOne (Except.ok "/") "s" noLogsCfg = Except.ok srv69 ∧
    srv69.accessLogSet = true ∧
    (readHandler srv69 (Except.ok "/") [("/srv/tftp/boot.bin", [7, 8])] ("10.0.0.1", 40000)
        (fun content => ((content.length : Int), none)) 0 5 "boot.bin").accessRecords =
      [{ remoteIP := "10.0.0.1", remotePort := 40000, method := "GET", uri := "boot.bin",
         bytes := 2, duration := 5 }] := by
  refine ⟨rfl, by decide, rfl, by decide⟩

/-- A server entry used to exhibit duplicate listener addresses. -/
def dupCfg : ServerConfig :=
  { listen := ":69", root := "/srv/tftp", timeout := 0, logs := false }

/-- Claim C6, counterexample: two configured servers with the same
listen address provision successfully — no duplicate-address check is
performed — and the two instances carry equal bound addresses. -/
theorem provision_accepts_duplicate_listeners :
    provision (Except.ok "/") [("a", dupCfg), ("b", dupCfg)] =
      Except.ok
        [{ name := "a", root := "/srv/tftp", addr := addr69, timeout := 0, accessLogSet := true },
         { name := "b", root := "/srv/tftp", addr := addr69, timeout := 0, accessLogSet := true }] := by
  decide

/-- Claim C6, amended: `Provision` succeeds exactly when every entry
individually provisions (root resolution, address parse, UDP check); it
performs no cross-entry uniqueness check on listener addresses. -/
theorem provision_ok_iff_each_entry_ok (wd : Except Unit String)
    (cfgs : List (String × ServerConfig)) :
    (∃ res, provision wd cfgs = Except.ok res) ↔
      ∀ p ∈ cfgs, ∃ s, provisionOne wd p.1 p.2 = Except.ok s := by
  induction cfgs with
  | nil => simp [provision]
  | cons hd rest ih =>
    cases hd with
    | mk n c =>
      cases hone : provisionOne wd n c with
      | error e =>
        simp [provision, hone]
      | ok s =>
        cases hrest : provision wd rest with
        | error e =>
          simp only [provision, hone, hrest]
          constructor
          · intro ⟨res, hres⟩
            exact absurd hres (by simp)
          · intro hall
            have := (ih.mpr (fun p hp => hall p (List.mem_cons_of_mem _ hp)))
            obtain ⟨res, hres⟩ := this
            rw [hres] at hrest
            exact absurd hrest (by simp)
        | ok ss =>
          simp only [provision, hone, hrest]
          constructor
          · intro _
            intro p hp
            cases hp with
            | head => exact ⟨s, hone⟩
            | tail _ hmem =>
              exact ih.mp ⟨ss, hrest⟩ p hmem
          · intro _
            exact ⟨s :: ss, rfl⟩

/-- A server entry whose listen address encodes a two-port range. -/
def rangeCfg : ServerConfig :=
  { listen := ":6000-6001", root := "/srv/tftp", timeout := 0, logs := false }

/-- Claim C7, counterexample: a listen address with a port range of size
2 provisions to exactly one instance (the current code does not expand
the range into one instance per port). -/
theorem provision_single_instance_for_range :
    provision (Except.ok "/") [("s", rangeCfg)] =
      Except.ok
        [{ name := "s", root := "/srv/tftp",
           addr := { network := "udp", host := "", startPort := 6000, endPort := 6001 },
           timeout := 0, accessLogSet := true }] ∧
    portRangeSize { network := "udp", host := "", startPort := 6000, endPort := 6001 } = 2 := by
  constructor
  · decide
  · decide

/-- Claim C7, amended: a successful `Provision` creates exactly one
instance per configured server entry, regardless of the size of the port
range its listen address encodes. -/
theorem provision_one_instance_per_entry (wd : Except Unit String)
    (cfgs : List (String × ServerConfig)) (res : List TftpSrv)
    (h : provision wd cfgs = Except.ok res) :
    res.length = cfgs.length := by
  induction cfgs generalizing res with
  | nil =>
    simp [provision] at h
    simp [← h]
  | cons hd rest ih =>
    cases hd with
    | mk n c =>
      cases hone : provisionOne wd n c with
      | error e => simp [provision, hone] at h
      | ok s =>
        cases hrest : provision wd rest with
        | error e => simp [provision, hone, hrest] at h
        | ok ss =>
          simp only [provision, hone, hrest, Except.ok.injEq] at h
          subst h
          simp [ih ss hrest]

/-- The single instance provisioned from `rangeCfg`. -/
def rangeSrv : TftpSrv :=
  { name := "s", root := "/srv/tftp",
    addr := { network := "udp", host := "", startPort := 6000, endPort := 6001 },
    timeout := 0, accessLogSet := true }

/-- Witness for `provision_one_instance_per_entry` at a one-entry
configuration whose address encodes a two-port range. -/
theorem provision_one_instance_per_entry_witness :
    provision (Except.ok "/") [("s", rangeCfg)] = Except.ok [rangeSrv] ∧
    ([rangeSrv] : List TftpSrv).length =
      ([("s", rangeCfg)] : List (String × ServerConfig)).length :=
  ⟨by decide,
    provision_one_instance_per_entry (Except.ok "/") [("s", rangeCfg)] [rangeSrv] (by decide)⟩

/-! ### Start and Stop -/

/-- What acquiring the listener for an instance can yield: a bind
failure, a listener that is not packet-oriented, or a usable UDP packet
connection. -/
inductive BindOutcome
  | bindFail
  | notPacket
  | okPacket
deriving DecidableEq

/-- Outcome of `Start`: the returned error, and the serving tasks that
were launched and are still running when `Start` returns. -/
structure StartResult where
  err : Option String
  running : List TftpSrv
deriving DecidableEq

/-- Loop of `Start`: instance `i` binds with outcome `bind i`; on the
first failure the error is returned at once, the tasks launched so far
staying in `running` — nothing stops or rolls them back. -/
def startFrom (bind : Nat → BindOutcome) :
    List TftpSrv → Nat → List TftpSrv → StartResult
  | [], _, acc => { err := none, running := acc }
  | s :: rest, i, acc =>
    match bind i with
    | BindOutcome.bindFail =>
      { err := some ("tftp: failed to listen on " ++ s.name), running := acc }
    | BindOutcome.notPacket =>
      { err := some ("tftp: failed to listen on " ++ s.name), running := acc }
    | BindOutcome.okPacket => startFrom bind rest (i + 1) (acc ++ [s])

/-- Model of `Start`. -/
def start (servers : List TftpSrv) (bind : Nat → BindOutcome) : StartResult :=
  startFrom bind servers 0 []

theorem startFrom_fail_prefix (bind : Nat → BindOutcome) (l : List TftpSrv)
    (i : Nat) (acc : List TftpSrv) (k : Nat) (hk : k < l.length)
    (hbefore : ∀ j, j < k → bind (i + j) = BindOutcome.okPacket)
    (hfail : bind (i + k) ≠ BindOutcome.okPacket) :
    (startFrom bind l i acc).err.isSome = true ∧
    (startFrom bind l i acc).running = acc ++ l.take k := by
  induction l generalizing i acc k with
  | nil => simp at hk
  | cons s rest ih =>
    cases k with
    | zero =>
      rw [Nat.add_zero] at hfail
      cases hb : bind i with
      | bindFail => simp [startFrom, hb]
      | notPacket => simp [startFrom, hb]
      | okPacket => exact absurd hb hfail
    | succ k' =>
      have hb0 : bind (i + 0) = BindOutcome.okPacket := hbefore 0 (Nat.succ_pos k')
      rw [Nat.add_zero] at hb0
      have hbefore' : ∀ j, j < k' → bind (i + 1 + j) = BindOutcome.okPacket := by
        intro j hj
        have := hbefore (j + 1) (Nat.succ_lt_succ hj)
        rw [show i + (j + 1) = i + 1 + j by omega] at this
        exact this
      have hfail' : bind (i + 1 + k') ≠ BindOutcome.okPacket := by
        rw [show i + 1 + k' = i + (k' + 1) by omega]
        exact hfail
      have hk' : k' < rest.length := Nat.lt_of_succ_lt_succ hk
      have := ih (i + 1) (acc ++ [s]) k' hk' hbefore' hfail'
      simp only [startFrom, hb0]
      refine ⟨this.1, ?_⟩
      rw [this.2]
      simp

/-- Claim C10: `Start` is not atomic — when binding the listener of the
instance at position `k` fails (after the first `k` bound successfully),
`Start` returns an error, and exactly the serving tasks of the first `k`
instances have been launched and keep running; `Start` does not stop or
roll them back. -/
theorem start_not_atomic (servers : List TftpSrv) (bind : Nat → BindOutcome) (k : Nat)
    (hk : k < servers.length)
    (hbefore : ∀ j, j < k → bind j = BindOutcome.okPacket)
    (hfail : bind k ≠ BindOutcome.okPacket) :
    (start servers bind).err.isSome = true ∧
    (start servers bind).running = servers.take k := by
  have := startFrom_fail_prefix bind servers 0 [] k hk
    (by intro j hj; rw [Nat.zero_add]; exact hbefore j hj)
    (by rw [Nat.zero_add]; exact hfail)
  rw [List.nil_append] at this
  exact this

/-- Witness for `start_not_atomic`: two instances, the second of which
fails to bind; the first keeps serving. -/
theorem start_not_atomic_witness :
    (1 < ([srv69, srv69] : List TftpSrv).length ∧
      (∀ j, j < 1 →
        (fun i => if i = 0 then BindOutcome.okPacket else BindOutcome.bindFail) j =
          BindOutcome.okPacket) ∧
      (fun i => if i = 0 then BindOutcome.okPacket else BindOutcome.bindFail) 1 ≠
        BindOutcome.okPacket) ∧
    ((start [srv69, srv69]
        (fun i => if i = 0 then BindOutcome.okPacket else BindOutcome.bindFail)).err.isSome =
      true ∧
      (start [srv69, srv69]
        (fun i => if i = 0 then BindOutcome.okPacket else BindOutcome.bindFail)).running =
        ([srv69, srv69] : List TftpSrv).take 1) :=
  ⟨⟨by decide, by decide, by decide⟩,
    start_not_atomic [srv69, srv69]
      (fun i => if i = 0 then BindOutcome.okPacket else BindOutcome.bindFail) 1
      (by decide) (by decide) (by decide)⟩

/-- An observable step of `Stop`. -/
inductive StopEvent
  | shutdown (name : String)
  | logStopped (name : String)
  | awaitTasks
deriving DecidableEq

/-- First non-nil error among the serving tasks' results, in completion
order (`errgroup.Wait`). -/
def firstErr : List (Option String) → Option String
  | [] => none
  | some e :: _ => some e
  | none :: rest => firstErr rest

/-- Outcome of `Stop`: its event trace and returned error. -/
structure StopResult where
  events : List StopEvent
  result : Option String
deriving DecidableEq

/-- Model of `Stop`: for each instance in order, signal `Shutdown` and
log a "server stopped" record; then await the error group — which blocks
until every serving task launched in `Start` has returned — and return
its result.  `taskResults` are the serving tasks' return values in
completion order. -/
def stop (servers : List TftpSrv) (taskResults : List (Option String)) : StopResult :=
  { events :=
      (servers.map (fun s => [StopEvent.shutdown s.name, StopEvent.logStopped s.name])).flatten
        ++ [StopEvent.awaitTasks],
    result := firstErr taskResults }

theorem firstErr_eq_head_filterMap (rs : List (Option String)) :
    firstErr rs = (rs.filterMap id).head? := by
  induction rs with
  | nil => rfl
  | cons r rest ih =>
    cases r with
    | none => simpa [firstErr] using ih
    | some e => simp [firstErr]

/-- Claim C8: `Stop` signals shutdown to every instance and logs one
"server stopped" record per instance, the await on the serving tasks
comes after all shutdown signals, and the returned value is the first
non-nil error among the tasks' results (`none` when all succeeded). -/
theorem stop_shutdown_all_and_first_error (servers : List TftpSrv)
    (taskResults : List (Option String)) :
    (∀ s ∈ servers,
      StopEvent.shutdown s.name ∈ (stop servers taskResults).events ∧
      StopEvent.logStopped s.name ∈ (stop servers taskResults).events) ∧
    ((stop servers taskResults).events.filter
        (fun e => match e with | StopEvent.logStopped _ => true | _ => false)).length =
      servers.length ∧
    (stop servers taskResults).events.getLast? = some StopEvent.awaitTasks ∧
    (stop servers taskResults).result = (taskResults.filterMap id).head? ∧
    ((∀ r ∈ taskResults, r = none) → (stop servers taskResults).result = none) := by
  refine ⟨?_, ?_, ?_, firstErr_eq_head_filterMap taskResults, ?_⟩
  · intro s hs
    constructor
    · apply List.mem_append_left
      rw [List.mem_flatten]
      exact ⟨[StopEvent.shutdown s.name, StopEvent.logStopped s.name],
        List.mem_map_of_mem _ hs, by simp⟩
    · apply List.mem_append_left
      rw [List.mem_flatten]
      exact ⟨[StopEvent.shutdown s.name, StopEvent.logStopped s.name],
        List.mem_map_of_mem _ hs, by simp⟩
  · show (List.filter _ (_ ++ [StopEvent.awaitTasks])).length = _
    rw [List.filter_append]
    simp only [List.filter_cons, List.filter_nil]
    induction servers with
    | nil => simp
    | cons s rest ih =>
      simp only [List.map_cons, List.flatten, List.filter_append] at ih ⊢
      simp only [List.length_append] at ih ⊢
      simp [List.filter_cons] at ih ⊢
      omega
  · show (_ ++ [StopEvent.awaitTasks]).getLast? = _
    simp
  · intro hall
    show firstErr taskResults = none
    rw [firstErr_eq_head_filterMap]
    have : taskResults.filterMap id = [] := by
      rw [List.filterMap_eq_nil_iff]
      intro r hr
      rw [hall r hr]
      rfl
    rw [this]
    rfl

end CaddyTftp
